import Mathlib

/-!
Verification of the content-negotiation and middleware-pipeline core of the
jennyservices/shorter repository (vendored jennyservices/jenny packages
`mime`, `encoders`, `decoders` (unnamed source file), `auth`, `options`,
`errors`, `http`).

Shallow embedding conventions:
* Go `map[string]T` values are embedded as association lists
  `List (String × T)` with distinct keys; the list order stands for one
  map-iteration order (Go's map iteration order is unspecified and
  randomized, so every list order of the same entries is realizable at
  runtime).  Mutating writes are embedded with `updateA`, which updates the
  first matching key in place or appends a new binding.
* `float64` quality weights are embedded as `ℚ`.  All weights appearing
  here are decimal fractions in [0,1] with at most three fractional digits;
  on that range `float64` arithmetic-free comparison agrees with `ℚ`.
* `sort.Slice` (Go 1.12) runs plain insertion sort for slices shorter than
  7 elements (the quicksort loop needs > 12 and the Shell pass with gap 6
  is vacuous below 7); `sortSlice` embeds that insertion sort, which is
  exact for every slice length arising in the concrete inputs used here.
* Stateful Go code (shared registry maps, the `options` middleware table,
  the closure state of `RequireScopes`) is embedded by explicit state
  passing.
-/

deriving instance DecidableEq for Except

namespace Shorter

/-! ## String primitives

Structural-recursion counterparts of the Go string/`path` library calls
used by the sources (`strings.Split`, `strings.Trim`, `strings.TrimSpace`,
`strings.HasPrefix`, `path.Split`), written so that every concrete
evaluation reduces inside the kernel. -/

/-- Split a character list at every occurrence of `sep` (Go
`strings.Split` with a one-character separator). -/
def splitChar (sep : Char) : List Char → List (List Char)
  | [] => [[]]
  | c :: rest =>
    match splitChar sep rest with
    | [] => if c = sep then [[], []] else [[c]]
    | h :: t => if c = sep then [] :: h :: t else (c :: h) :: t

/-- `strings.Split(s, sep)` for a one-character separator. -/
def strSplit (s : String) (sep : Char) : List String :=
  (splitChar sep s.data).map String.mk

/-- Join with a one-character separator (inverse of `strSplit`; stands in
for `path.Join`-style recombination of the leading path segments). -/
def joinSep (sep : Char) : List String → String
  | [] => ""
  | [x] => x
  | x :: xs => x ++ String.mk [sep] ++ joinSep sep xs

/-- Trim characters satisfying `p` from both ends (Go `strings.Trim` and
`strings.TrimSpace` shapes). -/
def trimBy (p : Char → Bool) (s : String) : String :=
  String.mk (((s.data.dropWhile p).reverse.dropWhile p).reverse)

/-- ASCII whitespace as trimmed around header tokens. -/
def isWS (c : Char) : Bool := c = ' ' || c = '\t'

/-- `strings.Join(l, ", ")` as used for the missing-scopes message. -/
def joinComma : List String → String
  | [] => ""
  | [x] => x
  | x :: xs => x ++ ", " ++ joinComma xs

/-- Go `strings.HasPrefix`. -/
def strHasPre (s pre : String) : Bool := pre.data.isPrefixOf s.data

/-- All-digit decimal parse of a character list (the digit-run parses done
on quality values). -/
def natOfDigits : List Char → Option Nat
  | [] => none
  | l => l.foldl (fun acc c =>
      acc.bind (fun n => if c.isDigit then some (n * 10 + (c.toNat - 48)) else none))
      (some 0)

/-! ## Association-list primitives for Go maps -/

/-- Lookup of a key in an association list (Go `m[k]`, comma-ok form). -/
def lookupA {β : Type _} : List (String × β) → String → Option β
  | [], _ => none
  | (k, v) :: t, key => if k = key then some v else lookupA t key

/-- Go map write `m[k] = v`: replace the first binding of `k`, or append one. -/
def updateA {β : Type _} : List (String × β) → String → β → List (String × β)
  | [], k, v => [(k, v)]
  | (k0, v0) :: t, k, v => if k0 = k then (k, v) :: t else (k0, v0) :: updateA t k v

/-! ## Package `mime` -/

/-- `mime.Types`: `map[string]map[string]float64` (group ↦ subtype ↦ weight). -/
abbrev Types : Type := List (String × List (String × ℚ))

/-- Splits a path-like string at its final `/`, as Go `path.Split` does
(our first component omits the trailing slash that `path.Split` keeps;
callers always strip it with `strings.Trim(dir, "/")` anyway). -/
def lastSplit (s : String) : String × String :=
  match strSplit s '/' with
  | [] => ("", s)
  | [x] => ("", x)
  | parts => (joinSep '/' parts.dropLast, parts.getLastD "")

/-- Go `strings.Trim(s, "/")`: strip `/` characters from both ends. -/
def trimSlashes (s : String) : String :=
  trimBy (fun c => c = '/') s

/-- `mime.Type.Group`: `path.Split` then `strings.Trim(group, "/")`. -/
def typeGroup (s : String) : String := trimSlashes (lastSplit s).1

/-- `mime.Type.SubGroup`: the part after the final `/`. -/
def typeSubGroup (s : String) : String := (lastSplit s).2

/-- The nested-map write `g[group][sub] = q` (allocating the inner map
when absent), as done throughout package `mime`. -/
def typesInsert (t : Types) (g s : String) (q : ℚ) : Types :=
  updateA t g (updateA ((lookupA t g).getD []) s q)

/-- Two-level lookup `t[g][s]` (comma-ok form). -/
def typesLookup (t : Types) (g s : String) : Option ℚ :=
  (lookupA t g).bind (fun subs => lookupA subs s)

/-- `mimeSpec`: one `(typ, subTyp, q)` entry collected by `Types.Walk`. -/
structure MimeSpec where
  typ : String
  subTyp : String
  q : ℚ
deriving DecidableEq, Repr

/-- Byte-wise lexicographic three-way comparison on character lists.
(Go strings are compared byte-wise over UTF-8; on these ASCII media-type
strings that coincides with code-point order.) -/
def cmpCharList : List Char → List Char → Int
  | [], [] => 0
  | [], _ :: _ => -1
  | _ :: _, [] => 1
  | a :: as, b :: bs =>
    if a.toNat < b.toNat then -1
    else if b.toNat < a.toNat then 1
    else cmpCharList as bs

/-- Go `strings.Compare`. -/
def cmpStr (a b : String) : Int :=
  cmpCharList a.data b.data

/-- The comparator passed to `sort.Slice` in `Types.Walk`:
`(types[i].q > types[j].q) || (strings.Compare(typ_i, typ_j) + strings.Compare(subTyp_i, subTyp_j) > 0)`. -/
def specLess (i j : MimeSpec) : Bool :=
  decide (j.q < i.q) || decide (0 < cmpStr i.typ j.typ + cmpStr i.subTyp j.subTyp)

/-- One bubbling step of Go's insertion sort, on the reversed sorted prefix:
the new element `x` moves left past every element `y` with `less x y`. -/
def insRev {α : Type _} (r : α → α → Bool) (x : α) : List α → List α
  | [] => [x]
  | y :: ys => if r x y then y :: insRev r x ys else x :: y :: ys

/-- Go 1.12 `sort.Slice` in the insertion-sort regime (slice length < 7,
which covers every concrete slice sorted in this development). -/
def sortSlice {α : Type _} (r : α → α → Bool) (l : List α) : List α :=
  (l.foldl (fun acc x => insRev r x acc) []).reverse

/-- The flattening loop at the top of `Types.Walk`: one `mimeSpec` per
(group, subtype) entry, in map-iteration (here: list) order. -/
def flattenTypes (t : Types) : List MimeSpec :=
  t.flatMap (fun p => p.2.map (fun sq => ⟨p.1, sq.1, sq.2⟩))

/-- `Types.Walk`'s sorted spec sequence. -/
def walkList (t : Types) : List MimeSpec :=
  sortSlice specLess (flattenTypes t)

/-- The `Type` strings (`fmt.Sprintf("%s/%s", typ, subTyp)`) that
`Types.Walk` feeds to its callback, in emission order. -/
def walkStrings (t : Types) : List String :=
  (walkList t).map (fun sp => sp.typ ++ "/" ++ sp.subTyp)

/-- `mime.Aggregate`: each listed type at weight 1, with the subtype
exploded on `+`. -/
def aggregate (list : List String) : Types :=
  list.foldl (fun g s =>
    let group := typeGroup s
    (strSplit (typeSubGroup s) '+').foldl (fun g2 st => typesInsert g2 group st 1) g) []

/-- Quality value parser for an accept parameter (decimal in `[0,1]` with a
short fraction), modelling the dependency `github.com/golang/gddo`'s
`header.ParseAccept` quality handling (that package is not vendored in this
repository). -/
def parseQ (s : String) : Option ℚ :=
  match strSplit s '.' with
  | [i] => (natOfDigits i.data).map (fun n => (n : ℚ))
  | [i, f] =>
    match natOfDigits i.data, natOfDigits f.data with
    | some ni, some nf => some ((ni : ℚ) + (nf : ℚ) / ((10 : ℚ) ^ f.length))
    | _, _ => none
  | _ => none

/-- Accept-header splitter modelling `header.ParseAccept` from
`github.com/golang/gddo` (a dependency whose source is not part of this
repository): comma-separated media ranges, value before any `;`,
quality from a `q=` parameter, defaulting to 1. -/
def parseAccept (h : String) : List (String × ℚ) :=
  (strSplit h ',').filterMap (fun part =>
    match strSplit part ';' with
    | [] => none
    | v :: ps =>
      let value := trimBy isWS v
      if value = "" then none
      else
        let q := (ps.filterMap (fun p0 =>
          let p1 := trimBy isWS p0
          if strHasPre p1 "q=" then parseQ (String.mk (p1.data.drop 2)) else none)).headD 1
        some (value, q))

/-- The graph-building loop of `mime.RequestTypes`, applied to the parsed
accept specs: `g[group][subType] = v.Q` for every `+`-separated subtype. -/
def requestTypes (specs : List (String × ℚ)) : Types :=
  specs.foldl (fun g sp =>
    let group := typeGroup sp.1
    (strSplit (typeSubGroup sp.1) '+').foldl (fun g2 st => typesInsert g2 group st sp.2) g) []

/-- `mime.NewTypes`: parse a header string into a `Types` graph. -/
def newTypes (s : String) : Types :=
  requestTypes (parseAccept s)

/-- The `*/*` pre-pass of `mime.Intersect`: when the client graph `b` holds
a global wildcard at weight `q`, every entry of `a` (visited in `a.Walk`
order) is written into `b` at weight `q`. -/
def expandClient (a b : Types) : Types :=
  match lookupA b "*" with
  | none => b
  | some subs =>
    match lookupA subs "*" with
    | none => b
    | some q =>
      (walkStrings a).foldl (fun acc m => typesInsert acc (typeGroup m) (typeSubGroup m) q) b

/-- The body of `mime.Intersect`'s inner loop, for one server subtype
entry `sq` of group `g` against the client subtype map `bsubs` (with
`wildcarded` precomputed).  Note the
`if q, ok := b[group][subgroup]; ok || wildcarded` line of the source:
when the exact lookup misses but the group is wildcarded, `q` is the
`float64` zero value `0`. -/
def intersectInner (g : String) (bsubs : List (String × ℚ)) (wildcarded : Bool)
    (acc : Types) (sq : String × ℚ) : Types :=
  match lookupA bsubs sq.1 with
  | some q => typesInsert acc g sq.1 q
  | none => if wildcarded then typesInsert acc g sq.1 0 else acc

/-- The body of `mime.Intersect`'s outer loop, for one server group row
`p` against the (already wildcard-expanded) client graph `b2`:
`if b[group] == nil { continue }`, then the inner loop with
`_, wildcarded := b[group][wildcard]`. -/
def intersectOuter (b2 : Types) (g : Types) (p : String × List (String × ℚ)) : Types :=
  match lookupA b2 p.1 with
  | none => g
  | some bsubs => p.2.foldl (intersectInner p.1 bsubs ((lookupA bsubs "*").isSome)) g

/-- `mime.Intersect`: the `*/*` pre-pass followed by the nested loops. -/
def intersect (a b : Types) : Types :=
  let b2 := expandClient a b
  a.foldl (intersectOuter b2) []

/-! ## Package `encoders` (file `encoders/encoder.go`, package `encoders` part) -/

/-- Tags identifying the encoder constructors registered in the global
`encoders` map (`JSONEncoder`, `XMLEncoder`, `TextEncoder`, `FormEncoder`,
`ByteEncoder`). -/
inductive EncTag where
  | json
  | xml
  | text
  | form
  | byteE
deriving DecidableEq, Repr

/-- The initial contents of the global `encoders` registry. -/
def defaultEncoders : List (String × EncTag) :=
  [("application/json", .json),
   ("application/xml", .xml),
   ("text/plain", .text),
   ("application/x-www-form-urlencoded", .form),
   ("application/octet-stream", .byteE)]

/-- `encoders.Register`: last registration per type wins (map write). -/
def encodersRegister (reg : List (String × EncTag)) (s : String) (n : EncTag) :
    List (String × EncTag) :=
  updateA reg s n

/-- The candidate set walked by `ResponseEncoder`: intersect the aggregated
server graph with the client graph, and fall back to the whole server graph
when the intersection has no groups (`len(available) < 1`). -/
def candidateTypes (serverGraph clientGraph : Types) : Types :=
  let available := intersect serverGraph clientGraph
  if available.length < 1 then serverGraph else available

/-- The `available.Walk` callback loop of `ResponseEncoder`: once an encoder
has been found the callback is a no-op; a candidate without a registered
encoder aborts the walk with an error (Go's `Walk` stops at the first
callback error). -/
def resolveEncLoop (reg : List (String × EncTag)) :
    List String → Option (EncTag × String) → Except String (Option (EncTag × String))
  | [], acc => .ok acc
  | t :: ts, acc =>
    match acc with
    | some _ => resolveEncLoop reg ts acc
    | none =>
      match lookupA reg t with
      | some e => resolveEncLoop reg ts (some (e, t))
      | none => .error (t ++ " isn't a registered encoder")

/-- `encoders.ResponseEncoder`.  `ctxAccepts` is the client graph stored
under `ContextKeyAccepts` (`jennyhttp.ContextAccepts` fails when absent,
and the error is wrapped with `"response encoder"`).  The first result
component is the encoder constructor (`none` embeds a nil
`NewEncoderFunc`, which the fallback line `encoders[mime.ApplicationOctet]`
could produce if that type were ever unregistered). -/
def responseEncoder (ctxAccepts : Option Types) (accepts : List String)
    (reg : List (String × EncTag)) : Except String (Option EncTag × String) :=
  match ctxAccepts with
  | none => .error "response encoder: can't find accepts in header"
  | some clientGraph =>
    let serverGraph := aggregate accepts
    let available := candidateTypes serverGraph clientGraph
    match resolveEncLoop reg (walkStrings available) none with
    | .error e => .error e
    | .ok none => .ok (lookupA reg "application/octet-stream", "application/octet-stream")
    | .ok (some (e, t)) => .ok (some e, t)

/-! ## Package `decoders` (unnamed source file `part_000`) -/

/-- Tags for the decoder constructors in the global `decoders` map. -/
inductive DecTag where
  | json
  | xml
  | form
deriving DecidableEq, Repr

/-- The initial contents of the global `decoders` registry. -/
def defaultDecoders : List (String × DecTag) :=
  [("application/json", .json),
   ("application/xml", .xml),
   ("application/x-www-form-urlencoded", .form)]

/-- The `serverSent.Walk` callback loop of `decoders.ResponseDecoder`.
Unlike the encoder loop there is no found-already guard, so each registered
candidate overwrites `dec`; the first unregistered candidate aborts the
walk with an error.  Returns the final `dec` and the abort error, if any. -/
def decodeLoop (reg : List (String × DecTag)) :
    List String → Option DecTag → Option DecTag × Option String
  | [], acc => (acc, none)
  | t :: ts, acc =>
    match lookupA reg t with
    | some d => decodeLoop reg ts (some d)
    | none => (acc, some (t ++ " isn't a registered decoder"))

/-- `decoders.ResponseDecoder`: build a graph from the response's declared
`Content-Type` header alone, walk it, and return `(dec, nil)` when some
decoder was assigned, else `(nil, err)` (where `err` is `nil` for an empty
candidate list). -/
def responseDecoder (contentType : String) (reg : List (String × DecTag)) :
    Option DecTag × Option String :=
  let serverSent := newTypes contentType
  let r := decodeLoop reg (walkStrings serverSent) none
  match r.1 with
  | none => (none, r.2)
  | some d => (some d, none)

/-! ## Package `auth` (file `encoder.go`, package `auth` part) -/

/-- Claims stored in a context or in a parsed token: either
`stdjwt.MapClaims` (a `map[string]...`; its value type is irrelevant here)
or some other implementation of the `Claims` interface. -/
inductive ClaimsV where
  | mapClaims (m : List (String × String))
  | other
deriving DecidableEq, Repr

/-- A `*stdjwt.Token` as far as these middlewares inspect it. -/
structure TokenV where
  claims : ClaimsV
  valid : Bool
deriving DecidableEq, Repr

/-- The value stored under `kitjwt.JWTClaimsContextKey`: either a
`*stdjwt.Token` (what `ScopesToContext` type-asserts for) or a bare
`stdjwt.Claims` value (what `UserToContext` type-asserts for, and what
`JWTToContext` actually stores). -/
inductive JwtSlot where
  | tok (t : TokenV)
  | cl (c : ClaimsV)
deriving DecidableEq, Repr

/-- The request context fields read and written by the `auth` middlewares.
`user` and `scopes` are the entries under `UserContextKey` and
`ScopesContextKey`. -/
structure Ctx where
  jwtSlot : Option JwtSlot
  user : Option String
  scopes : Option (List String)
deriving DecidableEq, Repr

/-- `auth.ScopesToContext`: scopes extraction.  The extractor runs only
when the context holds a `*stdjwt.Token` whose claims are `MapClaims`; on
extractor success the scopes are written to the context, on extractor
error (`err != nil`) the context is passed on unchanged.  `next` is the
wrapped endpoint. -/
def scopesToContext {R E : Type _} (claimsScopes : List (String × String) → Except E (List String))
    (next : Ctx → R) (ctx : Ctx) : R :=
  match ctx.jwtSlot with
  | some (.tok t) =>
    match t.claims with
    | .mapClaims m =>
      match claimsScopes m with
      | .ok user => next { ctx with scopes := some user }
      | .error _ => next ctx
    | .other => next ctx
  | _ => next ctx

/-- `auth.UserToContext`: user extraction.  The extractor runs only when
the context value under the claims key is a `stdjwt.Claims` value; on
success the user is written, on error the context is passed on unchanged. -/
def userToContext {R E : Type _} (claimsUser : ClaimsV → Except E String)
    (next : Ctx → R) (ctx : Ctx) : R :=
  match ctx.jwtSlot with
  | some (.cl c) =>
    match claimsUser c with
    | .ok u => next { ctx with user := some u }
    | .error _ => next ctx
  | _ => next ctx

/-- The closure state of one `auth.RequireScopes(scopes)` value: the map
`x` built once with every required scope marked `false`.  Duplicate
required scopes collapse into one key, in first-occurrence order. -/
def initScopes (scopes : List String) : List (String × Bool) :=
  scopes.foldl (fun m s => updateA m s false) []

/-- The per-invocation marking loop `for _, scope := range scopes
{ checkList[scope] = true }`.  Because `checkList := x` copies only the Go
map reference, these writes land in the shared map `x`. -/
def markGranted (x : List (String × Bool)) (granted : List String) : List (String × Bool) :=
  granted.foldl (fun m s => updateA m s true) x

/-- One invocation of the endpoint returned by `RequireScopes`.  `x` is the
shared check map going in; the second component is the (mutated) shared
map after the call.  `ctxScopes` is the `ScopesContextKey` entry
(`none` embeds a failed type assertion, defaulted to the empty slice).
On denial the error message joins every key of the check map. -/
def requireScopesRun (x : List (String × Bool)) (ctxScopes : Option (List String)) :
    Except String Unit × List (String × Bool) :=
  let granted := ctxScopes.getD []
  let checkList := markGranted x granted
  let hasAccess := checkList.all (fun p => p.2)
  let missingScopes := checkList.map (fun p => p.1)
  (if hasAccess then .ok ()
   else .error ("request is missing these scopes: " ++ joinComma missingScopes),
   checkList)

/-! ## Package `options` -/

/-- The middlewares that `Options.OpMiddlewares` composes: the always-on
tracing and error-reporting stages, the three optional auth stages, and
explicitly registered extras (numbered by the order in which the test
harness names them). -/
inductive MW where
  | tracing
  | errorReporting
  | jwt
  | user
  | scopes
  | extra (n : Nat)
deriving DecidableEq, Repr

/-- Marker name of a middleware stage, for the ordered inbound log. -/
def mwName : MW → String
  | .tracing => "tracing"
  | .errorReporting => "errorReporting"
  | .jwt => "jwt"
  | .user => "user"
  | .scopes => "scopes"
  | .extra n => "extra" ++ toString n

/-- The `options.Options` fields that determine pipeline assembly.  The
tracer and error reporter always exist (no-op defaults), so they carry no
flag; `kf`/`sm`/`cf` are the three JWT parameters.  `middlewares` is the
per-operation table of `*stack.Stack`, each stack stored top-first. -/
structure OptionsState where
  kfSet : Bool
  smSet : Bool
  cfSet : Bool
  userSet : Bool
  scopesSet : Bool
  middlewares : List (String × List MW)
deriving DecidableEq, Repr

/-- `options.New()`: no-op tracer and reporter, default error encoder,
empty middleware table, no auth configuration. -/
def newOptions : OptionsState :=
  { kfSet := false, smSet := false, cfSet := false,
    userSet := false, scopesSet := false, middlewares := [] }

/-- `Options.RegisterMiddleware(op, middlewares...)`: create the
operation's stack if absent, then push each argument (pushing puts it on
top, i.e. at the head of the top-first list). -/
def registerMiddleware (o : OptionsState) (op : String) (mws : List MW) : OptionsState :=
  let cur := (lookupA o.middlewares op).getD []
  { o with middlewares := updateA o.middlewares op (mws.foldl (fun st mw => mw :: st) cur) }

/-- The stack of always-on and configured stages that `OpMiddlewares`
pushes on top of the operation's registered stack, top-first:
error reporting is pushed last, hence popped first. -/
def builtinStack (o : OptionsState) : List MW :=
  let st1 := if o.scopesSet then [MW.scopes] else []
  let st2 := if o.userSet then MW.user :: st1 else st1
  let st3 := if o.kfSet && o.smSet && o.cfSet then MW.jwt :: st2 else st2
  MW.errorReporting :: MW.tracing :: st3

/-- `Options.OpMiddlewares(operation)`.  `operationStack` starts as the
operation's registered stack (shared with the table) or a fresh empty one;
the optional auth stages, tracing and error reporting are pushed on top;
then `mware := Pop()` and the loop `mware = endpoint.Chain(mware, Pop())`
drain the stack.  `endpoint.Chain(outer, inner)` keeps `outer` outermost,
so the composed chain, listed outermost first, is exactly the stack's
top-to-bottom content — and the drained stack object, when it came from
the table, is left empty there.  The first component is the chain
(outermost first); the second is the updated options state. -/
def opMiddlewares (o : OptionsState) (op : String) : List MW × OptionsState :=
  let present := (lookupA o.middlewares op).isSome
  let operationStack := (lookupA o.middlewares op).getD []
  let operationStack := if o.scopesSet then MW.scopes :: operationStack else operationStack
  let operationStack := if o.userSet then MW.user :: operationStack else operationStack
  let operationStack :=
    if o.kfSet && o.smSet && o.cfSet then MW.jwt :: operationStack else operationStack
  let operationStack := MW.tracing :: operationStack
  let operationStack := MW.errorReporting :: operationStack
  (operationStack,
   if present then { o with middlewares := updateA o.middlewares op [] } else o)

/-- Onion semantics of a composed chain over marker-logging endpoints: a
middleware appends its marker to the request log on the way in and calls
`next`.  Every middleware in `options`' chains calls `next` exactly once,
so the inbound entry order is the composition order. -/
def applyMW (m : MW) (next : List String → List String) : List String → List String :=
  fun log => next (log ++ [mwName m])

/-- Apply a whole chain (outermost first) around a handler endpoint. -/
def chainAll (l : List MW) (next : List String → List String) : List String → List String :=
  l.foldr applyMW next

/-- The inbound stage sequence of one request through the HTTP server for
an operation: `PopulateRequestContext` (always the first `ServerBefore` in
`HTTPOptions`) runs before the endpoint chain from `OpMiddlewares`, and the
handler runs last.  Returns the marker log of one request. -/
def inboundLog (o : OptionsState) (op : String) : List String :=
  "requestContext" :: chainAll (opMiddlewares o op).1 (fun log => log ++ ["handler"]) []

/-! ## Association-list lemmas -/

theorem lookupA_updateA {β : Type _} (m : List (String × β)) (k : String) (v : β)
    (k2 : String) :
    lookupA (updateA m k v) k2 = if k2 = k then some v else lookupA m k2 := by
  induction m with
  | nil =>
    by_cases h : k = k2
    · subst h
      simp [updateA, lookupA]
    · simp [updateA, lookupA, h, Ne.symm h]
  | cons hd tl ih =>
    obtain ⟨k0, v0⟩ := hd
    by_cases h0 : k0 = k
    · subst h0
      simp only [updateA, if_pos rfl, lookupA]
      by_cases h : k0 = k2
      · subst h
        simp
      · simp [h, Ne.symm h]
    · simp only [updateA, if_neg h0, lookupA]
      by_cases h : k0 = k2
      · subst h
        have : ¬k0 = k := h0
        simp [this, Ne.symm h0]
      · simp [h, ih]

theorem lookupA_isSome_iff {β : Type _} (m : List (String × β)) (k : String) :
    (lookupA m k).isSome ↔ k ∈ m.map Prod.fst := by
  induction m with
  | nil => simp [lookupA]
  | cons hd tl ih =>
    by_cases h : hd.1 = k
    · simp [lookupA, h]
    · rw [List.map_cons, List.mem_cons]
      simp only [lookupA, if_neg h]
      rw [ih]
      constructor
      · exact Or.inr
      · rintro (h1 | h1)
        · exact absurd h1.symm h
        · exact h1

theorem lookupA_mem {β : Type _} (m : List (String × β)) (k : String) (v : β)
    (h : lookupA m k = some v) : (k, v) ∈ m := by
  induction m with
  | nil => simp [lookupA] at h
  | cons hd tl ih =>
    obtain ⟨k0, v0⟩ := hd
    by_cases h0 : k0 = k
    · subst h0
      have h2 : v0 = v := by simpa [lookupA] using h
      subst h2
      exact List.mem_cons_self _ _
    · simp only [lookupA, if_neg h0] at h
      exact List.mem_cons_of_mem _ (ih h)

theorem mem_lookupA_nodup {β : Type _} (m : List (String × β)) (k : String) (v : β)
    (hnd : (m.map Prod.fst).Nodup) (hm : (k, v) ∈ m) : lookupA m k = some v := by
  induction m with
  | nil => simp at hm
  | cons hd tl ih =>
    simp only [List.map_cons, List.nodup_cons] at hnd
    rcases List.mem_cons.mp hm with heq | htl
    · rw [← heq]
      simp [lookupA]
    · have hk : k ∈ tl.map Prod.fst := List.mem_map.mpr ⟨(k, v), htl, rfl⟩
      have hne : hd.1 ≠ k := fun h => hnd.1 (h ▸ hk)
      simp [lookupA, hne, ih hnd.2 htl]

theorem keys_updateA {β : Type _} (m : List (String × β)) (k : String) (v : β) :
    (updateA m k v).map Prod.fst =
      if k ∈ m.map Prod.fst then m.map Prod.fst else m.map Prod.fst ++ [k] := by
  induction m with
  | nil => simp [updateA]
  | cons hd tl ih =>
    by_cases h0 : hd.1 = k
    · simp [updateA, h0]
    · simp only [updateA, if_neg h0, List.map_cons, ih, List.mem_cons]
      by_cases hk : k ∈ tl.map Prod.fst
      · simp [hk]
      · simp [hk, show ¬k = hd.1 from fun hh => h0 hh.symm]

theorem nodup_updateA {β : Type _} (m : List (String × β)) (k : String) (v : β)
    (hnd : (m.map Prod.fst).Nodup) : ((updateA m k v).map Prod.fst).Nodup := by
  rw [keys_updateA]
  split
  · exact hnd
  · next h =>
    simp [List.nodup_append, hnd, h]

/-- Lookup through a fold of constant-valued map writes (used for both the
`false`-initialisation and the `true`-marking loops of `RequireScopes`). -/
theorem lookupA_foldl_update (v : Bool) (l : List String) (m : List (String × Bool))
    (k : String) :
    lookupA (l.foldl (fun m2 s => updateA m2 s v) m) k =
      if k ∈ l then some v else lookupA m k := by
  induction l generalizing m with
  | nil => simp
  | cons g gs ih =>
    simp only [List.foldl_cons, ih, lookupA_updateA, List.mem_cons]
    by_cases h1 : k ∈ gs <;> by_cases h2 : k = g <;> simp [h1, h2]

theorem nodup_foldl_update (v : Bool) (l : List String) (m : List (String × Bool))
    (hnd : (m.map Prod.fst).Nodup) :
    ((l.foldl (fun m2 s => updateA m2 s v) m).map Prod.fst).Nodup := by
  induction l generalizing m with
  | nil => simpa
  | cons g gs ih => exact ih _ (nodup_updateA _ _ _ hnd)

/-! ## Sorting and walk lemmas -/

theorem insRev_perm {α : Type _} (r : α → α → Bool) (x : α) (l : List α) :
    (insRev r x l).Perm (x :: l) := by
  induction l with
  | nil => exact List.Perm.refl _
  | cons y ys ih =>
    by_cases h : r x y
    · simp only [insRev, if_pos h]
      exact (ih.cons y).trans (List.Perm.swap x y ys)
    · simp only [insRev, if_neg h]
      exact List.Perm.refl _

theorem foldl_insRev_perm {α : Type _} (r : α → α → Bool) (l acc : List α) :
    (l.foldl (fun a x => insRev r x a) acc).Perm (l ++ acc) := by
  induction l generalizing acc with
  | nil => exact List.Perm.refl _
  | cons x t ih =>
    simp only [List.foldl_cons, List.cons_append]
    exact ((ih (insRev r x acc)).trans
      (List.Perm.append_left t (insRev_perm r x acc))).trans List.perm_middle

theorem sortSlice_perm {α : Type _} (r : α → α → Bool) (l : List α) :
    (sortSlice r l).Perm l := by
  unfold sortSlice
  exact ((List.reverse_perm _).trans (foldl_insRev_perm r l [])).trans
    (by rw [List.append_nil])

/-! ## Encoder-resolution lemmas -/

theorem resolveEncLoop_found (reg : List (String × EncTag)) (l : List String)
    (x : EncTag × String) : resolveEncLoop reg l (some x) = .ok (some x) := by
  induction l with
  | nil => rfl
  | cons t ts ih => simpa [resolveEncLoop] using ih

/-! ## Decoder-resolution lemmas -/

theorem decodeLoop_eq (reg : List (String × DecTag)) (l : List String)
    (acc : Option DecTag) :
    decodeLoop reg l acc =
      ((l.takeWhile (fun t => (lookupA reg t).isSome)).foldl (fun _ t => lookupA reg t) acc,
       match l.drop (l.takeWhile (fun t => (lookupA reg t).isSome)).length with
       | [] => none
       | c :: _ => some (c ++ " isn't a registered decoder")) := by
  induction l generalizing acc with
  | nil => simp [decodeLoop]
  | cons t ts ih =>
    cases hl : lookupA reg t with
    | none => simp [decodeLoop, hl, List.takeWhile_cons]
    | some d => simp [decodeLoop, hl, List.takeWhile_cons, ih]

theorem foldl_lookup_last {β : Type _} (reg : List (String × β)) (l : List String)
    (acc : Option β) :
    l.foldl (fun _ t => lookupA reg t) acc =
      match l.getLast? with
      | none => acc
      | some t => lookupA reg t := by
  induction l generalizing acc with
  | nil => rfl
  | cons x xs ih =>
    cases xs with
    | nil => simp
    | cons y ys =>
      have hs : (y :: ys).getLast?.isSome := List.getLast?_isSome.mpr (List.cons_ne_nil y ys)
      obtain ⟨t, ht⟩ := Option.isSome_iff_exists.mp hs
      rw [List.foldl_cons, ih, List.getLast?_cons_cons, ht]

/-! ## Intersect characterization -/

/-- Characterization-side value (stated directly, to be compared with the
`intersect` loops): the weight at which a client subtype map `bsubs` with
wildcard flag `w` admits subtype `s` — the exact entry's weight when one
exists, else the `float64` zero value `0` under a wildcard, else nothing. -/
def innerVal (bsubs : List (String × ℚ)) (w : Bool) (s : String) : Option ℚ :=
  match lookupA bsubs s with
  | some q => some q
  | none => if w then some 0 else none

/-- Characterization-side value: the weight at which a client graph admits
the pair `(g, s)` (exact entry wins with its own weight; a group-level
subtype wildcard admits at weight `0`). -/
def includedWeight (b2 : Types) (g s : String) : Option ℚ :=
  match lookupA b2 g with
  | none => none
  | some bsubs => innerVal bsubs ((lookupA bsubs "*").isSome) s

theorem ite_true_bool {α : Type _} (x y : α) : (if true = true then x else y) = x := rfl

theorem ite_false_bool {α : Type _} (x y : α) : (if false = true then x else y) = y := rfl

theorem lookup_typesInsert (t : Types) (g s : String) (q : ℚ) (g2 s2 : String) :
    typesLookup (typesInsert t g s q) g2 s2 =
      if g2 = g ∧ s2 = s then some q else typesLookup t g2 s2 := by
  by_cases hg : g2 = g
  · subst hg
    by_cases hs : s2 = s
    · subst hs
      simp [typesInsert, typesLookup, lookupA_updateA]
    · have hs2 : ¬s = s2 := fun h => hs h.symm
      rw [if_neg (fun hc => hs hc.2)]
      cases hlg : lookupA t g2 with
      | none => simp [typesInsert, typesLookup, lookupA_updateA, hlg, hs, hs2, lookupA]
      | some subs => simp [typesInsert, typesLookup, lookupA_updateA, hlg, hs, hs2]
  · have hg2 : ¬g = g2 := fun h => hg h.symm
    rw [if_neg (fun hc => hg hc.1)]
    simp [typesInsert, typesLookup, lookupA_updateA, hg, hg2]

theorem lookup_intersectInner (g : String) (bsubs : List (String × ℚ)) (w : Bool)
    (acc : Types) (sq : String × ℚ) (g2 s2 : String) :
    typesLookup (intersectInner g bsubs w acc sq) g2 s2 =
      if g2 = g ∧ s2 = sq.1 ∧ (innerVal bsubs w s2).isSome then innerVal bsubs w s2
      else typesLookup acc g2 s2 := by
  by_cases hg : g2 = g
  · by_cases hs : s2 = sq.1
    · cases hb : lookupA bsubs sq.1 with
      | some q =>
        have hb2 : lookupA bsubs s2 = some q := by rw [hs]; exact hb
        rw [if_pos ⟨hg, hs, by rw [innerVal, hb2]; rfl⟩]
        rw [intersectInner]
        simp only [hb]
        rw [lookup_typesInsert, if_pos ⟨hg, hs⟩, innerVal, hb2]
      | none =>
        have hb2 : lookupA bsubs s2 = none := by rw [hs]; exact hb
        cases w with
        | true =>
          rw [if_pos ⟨hg, hs, by rw [innerVal, hb2]; rfl⟩]
          rw [intersectInner]
          simp only [hb, ite_true_bool, if_true]
          rw [lookup_typesInsert, if_pos ⟨hg, hs⟩, innerVal, hb2]
          rfl
        | false =>
          have hv : innerVal bsubs false s2 = none := by rw [innerVal, hb2]; rfl
          have hvs : ¬(innerVal bsubs false s2).isSome := by rw [hv]; simp
          rw [if_neg (fun hc => hvs hc.2.2)]
          rw [intersectInner]
          simp only [hb, ite_false_bool]
    · rw [if_neg (fun hc => hs hc.2.1)]
      cases hb : lookupA bsubs sq.1 with
      | some q =>
        rw [intersectInner]
        simp only [hb]
        rw [lookup_typesInsert, if_neg (fun hc => hs hc.2)]
      | none =>
        cases w with
        | true =>
          rw [intersectInner]
          simp only [hb, ite_true_bool, if_true]
          rw [lookup_typesInsert, if_neg (fun hc => hs hc.2)]
        | false =>
          rw [intersectInner]
          simp only [hb, ite_false_bool]
  · rw [if_neg (fun hc => hg hc.1)]
    cases hb : lookupA bsubs sq.1 with
    | some q =>
      rw [intersectInner]
      simp only [hb]
      rw [lookup_typesInsert, if_neg (fun hc => hg hc.1)]
    | none =>
      cases w with
      | true =>
        rw [intersectInner]
        simp only [hb, ite_true_bool, if_true]
        rw [lookup_typesInsert, if_neg (fun hc => hg hc.1)]
      | false =>
        rw [intersectInner]
        simp only [hb, ite_false_bool]

theorem lookup_innerFold (g : String) (bsubs : List (String × ℚ)) (w : Bool)
    (subs : List (String × ℚ)) (acc : Types) (g2 s2 : String) :
    typesLookup (subs.foldl (intersectInner g bsubs w) acc) g2 s2 =
      if g2 = g ∧ s2 ∈ subs.map Prod.fst ∧ (innerVal bsubs w s2).isSome
      then innerVal bsubs w s2
      else typesLookup acc g2 s2 := by
  induction subs generalizing acc with
  | nil => simp
  | cons hd rest ih =>
    rw [List.foldl_cons, ih, lookup_intersectInner]
    by_cases hg : g2 = g
    · by_cases hv : (innerVal bsubs w s2).isSome
      · by_cases hr : s2 ∈ rest.map Prod.fst
        · rw [if_pos ⟨hg, hr, hv⟩,
            if_pos ⟨hg, by rw [List.map_cons]; exact List.mem_cons_of_mem _ hr, hv⟩]
        · by_cases h0 : s2 = hd.1
          · rw [if_neg (fun hc => hr hc.2.1), if_pos ⟨hg, h0, hv⟩,
              if_pos ⟨hg, by rw [List.map_cons, h0]; exact List.mem_cons_self _ _, hv⟩]
          · rw [if_neg (fun hc => hr hc.2.1), if_neg (fun hc => h0 hc.2.1), if_neg]
            rintro ⟨-, hm, -⟩
            rw [List.map_cons, List.mem_cons] at hm
            rcases hm with h | h
            · exact h0 h
            · exact hr h
      · rw [if_neg (fun hc => hv hc.2.2), if_neg (fun hc => hv hc.2.2),
          if_neg (fun hc => hv hc.2.2)]
    · rw [if_neg (fun hc => hg hc.1), if_neg (fun hc => hg hc.1),
        if_neg (fun hc => hg hc.1)]

theorem lookup_outerStep (b2 : Types) (acc : Types) (p : String × List (String × ℚ))
    (g2 s2 : String) :
    typesLookup (intersectOuter b2 acc p) g2 s2 =
      if p.1 = g2 ∧ s2 ∈ p.2.map Prod.fst ∧ (includedWeight b2 g2 s2).isSome
      then includedWeight b2 g2 s2
      else typesLookup acc g2 s2 := by
  cases hb : lookupA b2 p.1 with
  | none =>
    rw [intersectOuter]
    simp only [hb]
    rw [if_neg]
    rintro ⟨h1, -, h3⟩
    have hb2 : lookupA b2 g2 = none := h1 ▸ hb
    rw [includedWeight, hb2] at h3
    simp at h3
  | some bsubs =>
    rw [intersectOuter]
    simp only [hb]
    rw [lookup_innerFold]
    by_cases h1 : p.1 = g2
    · have hb2 : lookupA b2 g2 = some bsubs := h1 ▸ hb
      have hiw : includedWeight b2 g2 s2 = innerVal bsubs ((lookupA bsubs "*").isSome) s2 := by
        rw [includedWeight, hb2]
      rw [hiw]
      by_cases h2 : s2 ∈ p.2.map Prod.fst
      · by_cases h3 : (innerVal bsubs ((lookupA bsubs "*").isSome) s2).isSome
        · rw [if_pos ⟨h1.symm, h2, h3⟩, if_pos ⟨h1, h2, h3⟩]
        · rw [if_neg (fun hc => h3 hc.2.2), if_neg (fun hc => h3 hc.2.2)]
      · rw [if_neg (fun hc => h2 hc.2.1), if_neg (fun hc => h2 hc.2.1)]
    · rw [if_neg (fun hc => h1 hc.1.symm), if_neg (fun hc => h1 hc.1)]

theorem lookup_outerFold (b2 : Types) (a : List (String × List (String × ℚ)))
    (acc : Types) (g2 s2 : String) :
    typesLookup (a.foldl (intersectOuter b2) acc) g2 s2 =
      if (∃ p ∈ a, p.1 = g2 ∧ s2 ∈ p.2.map Prod.fst) ∧ (includedWeight b2 g2 s2).isSome
      then includedWeight b2 g2 s2
      else typesLookup acc g2 s2 := by
  induction a generalizing acc with
  | nil => simp
  | cons p rest ih =>
    rw [List.foldl_cons, ih, lookup_outerStep]
    by_cases hiw : (includedWeight b2 g2 s2).isSome
    · by_cases hex : ∃ p2 ∈ rest, p2.1 = g2 ∧ s2 ∈ p2.2.map Prod.fst
      · have hex2 : ∃ p2 ∈ p :: rest, p2.1 = g2 ∧ s2 ∈ p2.2.map Prod.fst := by
          obtain ⟨p2, hm, hc⟩ := hex
          exact ⟨p2, List.mem_cons_of_mem _ hm, hc⟩
        rw [if_pos ⟨hex, hiw⟩, if_pos ⟨hex2, hiw⟩]
      · by_cases hp : p.1 = g2 ∧ s2 ∈ p.2.map Prod.fst
        · rw [if_neg (fun hc => hex hc.1), if_pos ⟨hp.1, hp.2, hiw⟩,
            if_pos ⟨⟨p, List.mem_cons_self _ _, hp⟩, hiw⟩]
        · rw [if_neg (fun hc => hex hc.1), if_neg (fun hc => hp ⟨hc.1, hc.2.1⟩), if_neg]
          rintro ⟨⟨p2, hm, hc⟩, -⟩
          rcases List.mem_cons.mp hm with h | h
          · exact hp (h ▸ hc)
          · exact hex ⟨p2, h, hc⟩
    · rw [if_neg (fun hc => hiw hc.2), if_neg (fun hc => hiw hc.2.2),
        if_neg (fun hc => hiw hc.2)]

/-! ## RequireScopes lemmas -/

theorem lookupA_markGranted (x : List (String × Bool)) (granted : List String) (k : String) :
    lookupA (markGranted x granted) k = if k ∈ granted then some true else lookupA x k :=
  lookupA_foldl_update true granted x k

theorem lookupA_initScopes (required : List String) (k : String) :
    lookupA (initScopes required) k = if k ∈ required then some false else none := by
  have h := lookupA_foldl_update false required [] k
  simpa [lookupA] using h

theorem nodup_initScopes (required : List String) :
    ((initScopes required).map Prod.fst).Nodup :=
  nodup_foldl_update false required [] (by simp)

theorem nodup_markGranted (x : List (String × Bool)) (granted : List String)
    (hnd : (x.map Prod.fst).Nodup) : ((markGranted x granted).map Prod.fst).Nodup :=
  nodup_foldl_update true granted x hnd

theorem requireScopesRun_ok_iff (x : List (String × Bool)) (cs : Option (List String)) :
    (requireScopesRun x cs).1 = Except.ok () ↔
      (markGranted x (cs.getD [])).all (fun p => p.2) = true := by
  rw [requireScopesRun]
  cases h : (markGranted x (cs.getD [])).all (fun p => p.2) <;> simp [h]

theorem requireScopes_fresh_decision_core (required granted : List String) :
    (requireScopesRun (initScopes required) (some granted)).1 = Except.ok () ↔
      ∀ s ∈ required, s ∈ granted := by
  rw [requireScopesRun_ok_iff, List.all_eq_true]
  constructor
  · intro hall s hs
    by_contra hg
    have hl : lookupA (markGranted (initScopes required) granted) s = some false := by
      rw [lookupA_markGranted, if_neg hg, lookupA_initScopes, if_pos hs]
    have hmem := lookupA_mem _ _ _ hl
    have := hall _ hmem
    simp at this
  · intro hsub p hp
    have hnd : ((markGranted (initScopes required) granted).map Prod.fst).Nodup :=
      nodup_markGranted _ _ (nodup_initScopes _)
    obtain ⟨k, v⟩ := p
    have hl : lookupA (markGranted (initScopes required) granted) k = some v :=
      mem_lookupA_nodup _ _ _ hnd hp
    rw [lookupA_markGranted] at hl
    by_cases hkg : k ∈ granted
    · rw [if_pos hkg] at hl
      cases hl
      rfl
    · rw [if_neg hkg, lookupA_initScopes] at hl
      by_cases hkr : k ∈ required
      · exact absurd (hsub k hkr) hkg
      · rw [if_neg hkr] at hl
        cases hl

/-! ## Pipeline lemmas -/

theorem opMiddlewares_fst (o : OptionsState) (op : String) :
    (opMiddlewares o op).1 = builtinStack o ++ (lookupA o.middlewares op).getD [] := by
  cases hs : o.scopesSet <;> cases hu : o.userSet <;>
    cases hj : (o.kfSet && o.smSet && o.cfSet) <;>
      simp [opMiddlewares, builtinStack, hs, hu, hj]

theorem opMiddlewares_snd_lookup (o : OptionsState) (op : String) :
    lookupA (opMiddlewares o op).2.middlewares op =
      if (lookupA o.middlewares op).isSome then some [] else none := by
  cases hm : lookupA o.middlewares op with
  | none => simp [opMiddlewares, hm]
  | some st => simp [opMiddlewares, hm, lookupA_updateA]

theorem builtinStack_opMiddlewares (o : OptionsState) (op : String) :
    builtinStack (opMiddlewares o op).2 = builtinStack o := by
  cases hm : lookupA o.middlewares op <;> simp [opMiddlewares, builtinStack, hm]

theorem chainAll_exec (l : List MW) (next : List String → List String) (log : List String) :
    chainAll l next log = next (log ++ l.map mwName) := by
  induction l generalizing log with
  | nil => simp [chainAll]
  | cons m t ih =>
    simp only [chainAll, List.foldr_cons, List.map_cons]
    have : List.foldr applyMW next t = chainAll t next := rfl
    rw [applyMW, this, ih]
    simp

/-! ## Claim C1: ResponseEncoder resolution -/

/-- C1 (counterexample): the claim says `ResponseEncoder` "returns the
first candidate type that has a registered encoder" and errors only "if
none of the candidates has a registered encoder".  With client and server
both offering `application/yaml` and `application/json`, the candidate
walk is `[application/yaml, application/json]`; `application/json` has a
registered encoder, yet the call fails naming `application/yaml`: the walk
aborts at the first candidate without an encoder instead of skipping it. -/
theorem C1_first_unregistered_counterexample :
    responseEncoder (some (newTypes "application/yaml, application/json"))
        ["application/yaml", "application/json"] defaultEncoders =
      Except.error "application/yaml isn't a registered encoder" ∧
    walkStrings (candidateTypes (aggregate ["application/yaml", "application/json"])
        (newTypes "application/yaml, application/json")) =
      ["application/yaml", "application/json"] ∧
    lookupA defaultEncoders "application/json" = some EncTag.json := by
  decide

/-- C1 (amended): `ResponseEncoder` aggregates the server types,
intersects with the client graph (falling back to the entire server set
when the intersection is empty), and then decides on the FIRST walked
candidate alone: if it has a registered encoder that candidate is
returned, and otherwise the call fails at once with an error naming that
first candidate — later candidates are never considered. -/
theorem C1_resolve_first_candidate (cg : Types) (accepts : List String)
    (reg : List (String × EncTag)) (h : String) (rest : List String)
    (hw : walkStrings (candidateTypes (aggregate accepts) cg) = h :: rest) :
    responseEncoder (some cg) accepts reg =
      match lookupA reg h with
      | some e => Except.ok (some e, h)
      | none => Except.error (h ++ " isn't a registered encoder") := by
  simp only [responseEncoder]
  rw [hw]
  cases hl : lookupA reg h with
  | some e => simp [resolveEncLoop, hl, resolveEncLoop_found]
  | none => simp [resolveEncLoop, hl]

/-- C1 (witness): the amended theorem applied at a concrete request whose
single candidate `application/json` is registered. -/
theorem C1_resolve_first_candidate_witness :
    responseEncoder (some (newTypes "application/json")) ["application/json"]
        defaultEncoders = Except.ok (some EncTag.json, "application/json") := by
  have h := C1_resolve_first_candidate (newTypes "application/json") ["application/json"]
    defaultEncoders "application/json" [] (by decide)
  exact h.trans (by decide)

/-! ## Claim C2: pipeline inbound order -/

/-- C2: the claim (matching the doc comments of `OpMiddlewares` and
`RegisterMiddleware`) requires the inbound order request-context → tracing
→ error-reporting → M1 → M2 → handler.  Evaluating the composed chain for
an operation with extras `M1, M2` registered in that order shows the code
actually runs error-reporting before tracing and the extras in reverse
registration order: request-context → error-reporting → tracing → M2 → M1
→ handler. -/
theorem C2_pipeline_order_divergence :
    inboundLog (registerMiddleware newOptions "shorten" [MW.extra 1, MW.extra 2]) "shorten" =
      ["requestContext", "errorReporting", "tracing", "extra2", "extra1", "handler"] ∧
    ["requestContext", "errorReporting", "tracing", "extra2", "extra1", "handler"] ≠
      ["requestContext", "tracing", "errorReporting", "extra1", "extra2", "handler"] := by
  decide

/-! ## Claim C3: Intersect -/

/-- C3 (counterexample): the claim says a pair included through a
group-level subtype wildcard gets "the weight of the matching client
entry".  With server `text/plain` (weight 1) and client `text/*` at
weight 1, the intersection holds `text/plain` at weight 0 — the Go
zero value of the missed exact lookup — not at the wildcard's weight 1. -/
theorem C3_wildcard_weight_counterexample :
    intersect [("text", [("plain", 1)])] [("text", [("*", (1 : ℚ))])] =
      [("text", [("plain", 0)])] ∧ (0 : ℚ) ≠ 1 := by
  decide

/-- C3 (amended): after the `*/*` pre-pass copies every server entry into
the client graph (`expandClient`), a server pair `(g, s)` is in the result
exactly when the expanded client graph admits it — with the exact client
entry's weight when an exact entry exists (exact match priority), and
with weight 0 (not the wildcard entry's weight) when only the group-level
subtype wildcard matches. -/
theorem C3_intersect_weight_rule (a b : Types) (g s : String) :
    typesLookup (intersect a b) g s =
      if ∃ p ∈ a, p.1 = g ∧ s ∈ p.2.map Prod.fst then
        includedWeight (expandClient a b) g s
      else none := by
  have h := lookup_outerFold (expandClient a b) a [] g s
  refine Eq.trans h ?_
  by_cases hex : ∃ p ∈ a, p.1 = g ∧ s ∈ p.2.map Prod.fst
  · by_cases hiw : (includedWeight (expandClient a b) g s).isSome
    · rw [if_pos ⟨hex, hiw⟩, if_pos hex]
    · rw [if_neg (fun hc => hiw hc.2), if_pos hex,
        Option.not_isSome_iff_eq_none.mp hiw]
      rfl
  · rw [if_neg (fun hc => hex hc.1), if_neg hex]
    rfl

/-! ## Claim C4: Walk order -/

/-- C4 (counterexample): the claim says `Walk`'s primary order is
descending weight.  For the graph with entries `a/a` at weight 1 and `b/b`
at weight 0 (flattened in this order), the sort comparator's string clause
`strings.Compare("b","a") + strings.Compare("b","a") > 0` fires and the
walk emits the weight-0 entry before the weight-1 entry. -/
theorem C4_walk_order_counterexample :
    walkList [("a", [("a", 1)]), ("b", [("b", (0 : ℚ))])] =
      [⟨"b", "b", 0⟩, ⟨"a", "a", 1⟩] ∧ (0 : ℚ) < 1 := by
  decide

/-- C4 (amended): `Walk` does enumerate every (group, subtype, weight)
entry of the graph exactly once — its output is a permutation of the
flattened entries — but the order comes from sorting with the comparator
`(q_i > q_j) || (compare(group_i, group_j) + compare(sub_i, sub_j) > 0)`,
which is not a two-key descending sort: a lower-weight entry whose strings
compare greater can be emitted before a higher-weight one, and for equal
weights the tie-break is the summed comparison of the two string fields,
not a comparison of the concatenations. -/
theorem C4_walk_enumerates_once (t : Types) : (walkList t).Perm (flattenTypes t) :=
  sortSlice_perm specLess (flattenTypes t)

/-! ## Claim C5: empty candidate set fallback -/

/-- C5 (counterexample): with no server-supported types the resolution
falls back unconditionally — but to `application/octet-stream` (the
`mime.ApplicationOctet` constant), not to the type the claim calls
`binary/octet-stream`. -/
theorem C5_fallback_type_counterexample :
    responseEncoder (some []) ([] : List String) defaultEncoders =
      Except.ok (some EncTag.byteE, "application/octet-stream") ∧
    "application/octet-stream" ≠ "binary/octet-stream" := by
  decide

/-- C5 (amended): when the candidate set is empty (no server-supported
types, hence an empty aggregate, empty intersection and empty fallback
set), `ResponseEncoder` resolves unconditionally to
`application/octet-stream` with its registered byte encoder, and this path
never returns an error — for every client graph. -/
theorem C5_empty_candidates_fallback (cg : Types) :
    responseEncoder (some cg) ([] : List String) defaultEncoders =
      Except.ok (some EncTag.byteE, "application/octet-stream") := rfl

/-! ## Claim C6: RequireScopes guard -/

/-- C6 (counterexample): the claim says the rejection error carries "the
set of missing scopes, sorted", naming only `write` in the spec's own
example.  With required `{read, write}` and granted `{read}` the code's
error joins EVERY key of the check map — `read, write` — so the granted,
non-missing scope `read` is reported as missing too. -/
theorem C6_missing_scopes_counterexample :
    (requireScopesRun (initScopes ["read", "write"]) (some ["read"])).1 =
      Except.error "request is missing these scopes: read, write" ∧
    "request is missing these scopes: read, write" ≠
      "request is missing these scopes: write" := by
  decide

/-- C6 (amended): on a freshly built `RequireScopes` value's first
invocation, unset granted scopes are treated as the empty set and the
request is authorized exactly when every required scope is granted; on
rejection the error message joins every key of the check map (the
required scopes plus any granted extras, in map order) rather than the
sorted missing set.  (The check map is shared between invocations, so
later invocations may behave differently; see C10.) -/
theorem C6_fresh_guard_decision :
    (∀ required granted : List String,
      ((requireScopesRun (initScopes required) (some granted)).1 = Except.ok () ↔
        ∀ s ∈ required, s ∈ granted)) ∧
    (∀ x : List (String × Bool), requireScopesRun x none = requireScopesRun x (some [])) ∧
    (∀ (x : List (String × Bool)) (cs : Option (List String)),
      (requireScopesRun x cs).1 = Except.ok () ∨
      (requireScopesRun x cs).1 =
        Except.error ("request is missing these scopes: " ++
          joinComma ((markGranted x (cs.getD [])).map Prod.fst))) := by
  refine ⟨requireScopes_fresh_decision_core, fun x => rfl, fun x cs => ?_⟩
  rw [requireScopesRun]
  cases h : (markGranted x (cs.getD [])).all (fun p => p.2) with
  | false =>
    right
    simp [h]
  | true =>
    left
    simp [h]

/-- C6 (witness): the amended decision rule applied at required `{a}`,
granted `{a}`. -/
theorem C6_fresh_guard_decision_witness :
    (requireScopesRun (initScopes ["a"]) (some ["a"])).1 = Except.ok () :=
  (C6_fresh_guard_decision.1 ["a"] ["a"]).mpr (by decide)

/-! ## Claim C7: fail-open extraction -/

/-- C7: user extraction and scopes extraction are fail-open.  Whenever the
relevant claims value is present in the context and the configured
extractor returns an error, the middleware calls the next stage with the
context unchanged — the user (resp. scopes) entry is left exactly as it
was, and the request proceeds; the extraction error never aborts the
request. -/
theorem C7_extraction_fail_open {R E : Type} (next : Ctx → R) (ctx : Ctx)
    (fU : ClaimsV → Except E String)
    (fS : List (String × String) → Except E (List String))
    (c : ClaimsV) (t : TokenV) (m : List (String × String)) (e1 e2 : E) :
    (ctx.jwtSlot = some (JwtSlot.cl c) → fU c = Except.error e1 →
      userToContext fU next ctx = next ctx) ∧
    (ctx.jwtSlot = some (JwtSlot.tok t) → t.claims = ClaimsV.mapClaims m →
      fS m = Except.error e2 → scopesToContext fS next ctx = next ctx) := by
  constructor
  · intro hslot herr
    simp [userToContext, hslot, herr]
  · intro hslot hclaims herr
    simp [scopesToContext, hslot, hclaims, herr]

/-- C7 (witness): both middlewares at a concrete always-failing extractor
and a context carrying claims — the context flows through unchanged. -/
theorem C7_extraction_fail_open_witness :
    userToContext (fun _ => Except.error "bad") (fun c2 => c2)
        ⟨some (JwtSlot.cl ClaimsV.other), none, none⟩ =
      ⟨some (JwtSlot.cl ClaimsV.other), none, none⟩ ∧
    scopesToContext (fun _ => Except.error "bad") (fun c2 => c2)
        ⟨some (JwtSlot.tok ⟨ClaimsV.mapClaims [], true⟩), none, none⟩ =
      ⟨some (JwtSlot.tok ⟨ClaimsV.mapClaims [], true⟩), none, none⟩ := by
  constructor
  · exact (@C7_extraction_fail_open Ctx String (fun c2 => c2)
      ⟨some (JwtSlot.cl ClaimsV.other), none, none⟩
      (fun _ => Except.error "bad") (fun _ => Except.error "bad")
      ClaimsV.other ⟨ClaimsV.mapClaims [], true⟩ [] "bad" "bad").1 rfl rfl
  · exact (@C7_extraction_fail_open Ctx String (fun c2 => c2)
      ⟨some (JwtSlot.tok ⟨ClaimsV.mapClaims [], true⟩), none, none⟩
      (fun _ => Except.error "bad") (fun _ => Except.error "bad")
      ClaimsV.other ⟨ClaimsV.mapClaims [], true⟩ [] "bad" "bad").2 rfl rfl rfl

/-! ## Claim C8: rebuilding the pipeline -/

/-- C8 (counterexample): the claim says building the pipeline "leaves the
registered-middleware table unchanged, so two successive builds ... yield
pipelines containing the same middleware sequence, including all
explicitly registered extras both times".  With one registered extra, the
first build contains it, the build empties the operation's stack in the
table, and the second build lacks the extra. -/
theorem C8_rebuild_drops_extras_counterexample :
    (opMiddlewares (registerMiddleware newOptions "shorten" [MW.extra 1]) "shorten").1 =
      [MW.errorReporting, MW.tracing, MW.extra 1] ∧
    lookupA (opMiddlewares (registerMiddleware newOptions "shorten" [MW.extra 1])
        "shorten").2.middlewares "shorten" = some [] ∧
    (opMiddlewares (opMiddlewares (registerMiddleware newOptions "shorten" [MW.extra 1])
        "shorten").2 "shorten").1 = [MW.errorReporting, MW.tracing] ∧
    ([MW.errorReporting, MW.tracing, MW.extra 1] ≠ [MW.errorReporting, MW.tracing]) := by
  decide

/-- C8 (amended): building the pipeline pops the operation's registered
stack empty (a registered operation maps to the empty stack afterwards),
so the second of two successive builds consists of the always-on and
configured stages only; the two builds agree exactly when no extras were
registered for the operation. -/
theorem C8_rebuild_characterization (o : OptionsState) (op : String) :
    (opMiddlewares ((opMiddlewares o op).2) op).1 = builtinStack o ∧
    ((opMiddlewares ((opMiddlewares o op).2) op).1 = (opMiddlewares o op).1 ↔
      (lookupA o.middlewares op).getD [] = []) := by
  have h2 : (opMiddlewares ((opMiddlewares o op).2) op).1 = builtinStack o := by
    rw [opMiddlewares_fst, opMiddlewares_snd_lookup, builtinStack_opMiddlewares]
    cases hm : (lookupA o.middlewares op).isSome <;> simp
  refine ⟨h2, ?_⟩
  rw [h2, opMiddlewares_fst o op]
  constructor
  · intro h
    have hlen := congrArg List.length h
    rw [List.length_append] at hlen
    exact List.eq_nil_of_length_eq_zero (by omega)
  · intro h
    rw [h, List.append_nil]

/-- C8 (witness): the characterization applied at a concrete options value
with one registered extra — the second build is the builtin chain and the
two builds differ. -/
theorem C8_rebuild_characterization_witness :
    (opMiddlewares (opMiddlewares (registerMiddleware newOptions "op2" [MW.extra 7])
        "op2").2 "op2").1 =
      builtinStack (registerMiddleware newOptions "op2" [MW.extra 7]) :=
  (C8_rebuild_characterization (registerMiddleware newOptions "op2" [MW.extra 7]) "op2").1

/-! ## Claim C9: ResponseDecoder -/

/-- C9 (counterexample): the claim says `ResponseDecoder` "returns the
first candidate with a registered decoder".  For declared content type
`application/xml, application/json` the candidate walk is
`[application/xml, application/json]` and `application/xml` has a
registered decoder, yet the returned decoder is the JSON one: without a
found-already guard, each registered candidate overwrites the previous
choice, so the last registered candidate wins. -/
theorem C9_last_registered_counterexample :
    responseDecoder "application/xml, application/json" defaultDecoders =
      (some DecTag.json, none) ∧
    walkStrings (newTypes "application/xml, application/json") =
      ["application/xml", "application/json"] ∧
    lookupA defaultDecoders "application/xml" = some DecTag.xml ∧
    DecTag.json ≠ DecTag.xml := by
  decide

/-- C9 (amended): `ResponseDecoder` resolves purely from the declared
Content-Type string (no server list) and walks its candidates, but the
walk aborts at the first candidate without a registered decoder and each
registered candidate overwrites the previous: the returned decoder is the
one of the LAST candidate in the maximal all-registered prefix of the
walk, an error (naming the first candidate) is returned only when that
prefix is empty and candidates exist, and an empty candidate list returns
neither decoder nor error. -/
theorem C9_response_decoder_characterization (ct : String)
    (reg : List (String × DecTag)) :
    responseDecoder ct reg =
      (((walkStrings (newTypes ct)).takeWhile
          (fun t2 => (lookupA reg t2).isSome)).getLast?.bind (fun t2 => lookupA reg t2),
       if ((walkStrings (newTypes ct)).takeWhile
          (fun t2 => (lookupA reg t2).isSome)).getLast?.isSome then none
       else
         match walkStrings (newTypes ct) with
         | [] => none
         | c :: _ => some (c ++ " isn't a registered decoder")) := by
  simp only [responseDecoder]
  rw [decodeLoop_eq, foldl_lookup_last]
  cases hgl : ((walkStrings (newTypes ct)).takeWhile
      (fun t2 => (lookupA reg t2).isSome)).getLast? with
  | none =>
    have hpre : (walkStrings (newTypes ct)).takeWhile
        (fun t2 => (lookupA reg t2).isSome) = [] := List.getLast?_eq_none_iff.mp hgl
    rw [hpre]
    simp
  | some t0 =>
    have hmem := List.mem_of_getLast?_eq_some hgl
    have hp := List.mem_takeWhile_imp hmem
    obtain ⟨d, hd2⟩ := Option.isSome_iff_exists.mp hp
    simp [hd2]

/-! ## Claim C10: invocation independence of RequireScopes -/

/-- C10: the claim says invocations of one `RequireScopes` value are
mutually independent.  They are not: `checkList := x` copies only the map
reference, so granted marks persist in the shared closure map.  After a
first invocation with granted `{write}`, a second invocation with NO
scopes in its context is accepted, while the same no-scopes context on a
fresh guard is rejected. -/
theorem C10_shared_state_dependence :
    (requireScopesRun (requireScopesRun (initScopes ["write"]) (some ["write"])).2 none).1 =
      Except.ok () ∧
    (requireScopesRun (initScopes ["write"]) none).1 =
      Except.error "request is missing these scopes: write" := by
  decide

end Shorter
